import Mathlib

/-!
Shallow embedding of the silk-codec repository (Rust) in Lean 4.

The embedding covers `src/silk.rs` (the length-prefixed SILK container:
`_decode_silk`, `_encode_silk`, and the `From<i32> for SilkError` status
mapping) and the pure numeric kernels of `src/pcm.rs`
(`clean_samples_to_pcm_bytes`, `resample`, `stereo_to_mono_mix`,
`convert_buffer_to_f32`).

Modelling conventions:
* byte slices are `List UInt8`;
* Rust machine integers are `Int`/`Nat` with explicit wrap-arounds where
  the source casts (`as i16`, `as usize`) can overflow;
* `f32`/`f64` samples are modelled as exact rationals (`Rat`): every
  formula of the source is transcribed literally over `Rat`;
* the opaque native SILK SDK (FFI calls behind `mod sdk`) is a parameter:
  a record of status codes and a state-passing transform, so the framing
  logic is verified for every possible engine behaviour.
-/

namespace SilkCodec

/-- Value of `src.get_i16_le()` on the two leading bytes: little-endian
16-bit, reinterpreted as a signed integer. -/
def getI16le (b0 b1 : UInt8) : Int :=
  let n : Nat := b0.toNat + 256 * b1.toNat
  if n < 32768 then (n : Int) else (n : Int) - 65536

/-- Rust `frame_size as i16`: wrap a `usize` value into a signed 16-bit
integer. -/
def i16OfNat (n : Nat) : Int :=
  if n % 65536 < 32768 then ((n % 65536 : Nat) : Int)
  else ((n % 65536 : Nat) : Int) - 65536

/-- Rust `x as usize` applied to an `i16` value: sign-extend and
reinterpret, i.e. reduce modulo `2^64`. -/
def usizeOfI16 (x : Int) : Nat :=
  (x % 2 ^ 64).toNat

/-- Rust `x as usize` applied to an `i32` value: sign-extend and
reinterpret, i.e. reduce modulo `2^64`. -/
def usizeOfI32 (x : Int) : Nat :=
  (x % 2 ^ 64).toNat

/-- Rust `(v as i16).to_le_bytes()` / `put_i16_le(v)`: the two
little-endian bytes of `v` modulo `2^16`. -/
def toLe16 (v : Int) : List UInt8 :=
  let n : Nat := (v % 65536).toNat
  [UInt8.ofNat (n % 256), UInt8.ofNat (n / 256)]

/-- The `SilkError` enum of `src/silk.rs`. -/
inductive SilkError
  | Invalid
  | EncInputInvalidNoOfSamples
  | EncFsNotSupported
  | EncPacketSizeNotSupported
  | EncPayloadBufTooShort
  | EncInvalidLossRate
  | EncInvalidComplexitySetting
  | EncInvalidInbandFecSetting
  | EncInvalidDtxSetting
  | EncInternalError
  | DecInvalidSamplingFrequency
  | DecPayloadTooLarge
  | DecPayloadError
  | Other (code : Int)
  deriving DecidableEq, Repr

/-- The `impl From<i32> for SilkError` status-code mapping. -/
def SilkError.fromI32 (code : Int) : SilkError :=
  if code = -1 then .EncInputInvalidNoOfSamples
  else if code = -2 then .EncFsNotSupported
  else if code = -3 then .EncPacketSizeNotSupported
  else if code = -4 then .EncPayloadBufTooShort
  else if code = -5 then .EncInvalidLossRate
  else if code = -6 then .EncInvalidComplexitySetting
  else if code = -7 then .EncInvalidInbandFecSetting
  else if code = -8 then .EncInvalidDtxSetting
  else if code = -9 then .EncInternalError
  else if code = -10 then .DecInvalidSamplingFrequency
  else if code = -11 then .DecPayloadTooLarge
  else if code = -12 then .DecPayloadError
  else .Other code

/-- `SKP_SILK_SDK_DecControlStruct` (decoder control record). -/
structure SKP_SILK_SDK_DecControlStruct where
  API_sampleRate : Int
  frameSize : Int
  framesPerPacket : Int
  moreInternalDecoderFrames : Int
  inBandFECOffset : Int
  deriving DecidableEq, Repr

/-- `SKP_SILK_SDK_EncControlStruct` (encoder control record). -/
structure SKP_SILK_SDK_EncControlStruct where
  API_sampleRate : Int
  maxInternalSampleRate : Int
  packetSize : Int
  bitRate : Int
  packetLossPercentage : Int
  complexity : Int
  useInBandFEC : Int
  useDTX : Int
  deriving DecidableEq, Repr

/-- Outcome of one `SKP_Silk_SDK_Decode` call: status code, updated opaque
decoder state, updated control record, the written `output_size` (an
`i16`), and the full contents of the working output buffer. -/
structure DecResult (σ : Type) where
  code : Int
  st : σ
  ctrl : SKP_SILK_SDK_DecControlStruct
  nSamples : Int
  buf : List UInt8

/-- Opaque decode-side SILK engine (the FFI calls of the decode path):
status of `SKP_Silk_SDK_Get_Decoder_Size`, status of
`SKP_Silk_SDK_InitDecoder`, the initial opaque state, and the per-frame
`SKP_Silk_SDK_Decode` transform. -/
structure DecEngine (σ : Type) where
  sizeCode : Int
  initCode : Int
  init : σ
  decode : σ → SKP_SILK_SDK_DecControlStruct → List UInt8 → DecResult σ

/-- The 9-byte ASCII magic `b"#!SILK_V3"`. -/
def silkHeader : List UInt8 := [35, 33, 83, 73, 76, 75, 95, 86, 51]

/-- The frame loop of `_decode_silk` (lines 64-92 of `src/silk.rs`):
read a 16-bit little-endian length, validate it against the maximum
frame size and the remaining bytes, slice the payload, run the engine,
and append `output_size as usize * 2` bytes of the working buffer. -/
def decodeFrames {σ : Type} (eng : DecEngine σ) (frame_size : Nat)
    (st : σ) (ctrl : SKP_SILK_SDK_DecControlStruct)
    (src : List UInt8) (result : List UInt8) :
    Except SilkError (List UInt8) :=
  match src with
  | b0 :: b1 :: rest =>
    let input_size : Int := getI16le b0 b1
    if input_size > i16OfNat frame_size then .error .Invalid
    else if rest.length < usizeOfI16 input_size then .error .Invalid
    else
      let input := rest.take (usizeOfI16 input_size)
      let src1 := rest.drop (usizeOfI16 input_size)
      let r := eng.decode st ctrl input
      if r.code ≠ 0 then .error (SilkError.fromI32 r.code)
      else
        decodeFrames eng frame_size r.st r.ctrl src1
          (result ++ r.buf.take (usizeOfI16 r.nSamples * 2))
  | _ => .ok result
termination_by src.length
decreasing_by simp; omega

/-- Continuation of `_decode_silk` after the header has been validated and
stripped: build the decoder control record, run the
`Get_Decoder_Size`/`InitDecoder` checks, then the frame loop. -/
def decodeAfterHeader {σ : Type} (eng : DecEngine σ)
    (src : List UInt8) (sample_rate : Int) : Except SilkError (List UInt8) :=
  let dec_control : SKP_SILK_SDK_DecControlStruct :=
    { API_sampleRate := sample_rate, frameSize := 0, framesPerPacket := 1,
      moreInternalDecoderFrames := 0, inBandFECOffset := 0 }
  if eng.sizeCode ≠ 0 then .error (SilkError.fromI32 eng.sizeCode)
  else if eng.initCode ≠ 0 then .error (SilkError.fromI32 eng.initCode)
  else
    let frame_size := usizeOfI32 sample_rate / 1000 * 40
    decodeFrames eng frame_size eng.init dec_control src []

/-- `_decode_silk` of `src/silk.rs`: skip the optional tencent flag byte,
require the magic, then run `decodeAfterHeader`. -/
def _decode_silk {σ : Type} (eng : DecEngine σ)
    (src0 : List UInt8) (sample_rate : Int) : Except SilkError (List UInt8) :=
  let src := if [(2 : UInt8)].isPrefixOf src0 then src0.drop 1 else src0
  if silkHeader.isPrefixOf src then
    decodeAfterHeader eng (src.drop silkHeader.length) sample_rate
  else .error .Invalid

/-- Outcome of one `SKP_Silk_SDK_Encode` call: status code, updated opaque
encoder state, the written `output_size` (an `i16`, a byte count here),
and the contents of the working output buffer. -/
structure EncResult (σ : Type) where
  code : Int
  st : σ
  nBytes : Int
  buf : List UInt8

/-- Opaque encode-side SILK engine: status of
`SKP_Silk_SDK_Get_Encoder_Size`, status of `SKP_Silk_SDK_InitEncoder`,
the initial opaque state, and the per-chunk `SKP_Silk_SDK_Encode`
transform. -/
structure EncEngine (σ : Type) where
  sizeCode : Int
  initCode : Int
  init : σ
  encode : σ → SKP_SILK_SDK_EncControlStruct → List UInt8 → EncResult σ

/-- Rust `slice::chunks(n)` (for `0 < n`): successive sub-slices of `n`
bytes, the last possibly shorter, none empty. -/
def listChunks (n : Nat) (l : List UInt8) : List (List UInt8) :=
  if n = 0 then []
  else if l = [] then []
  else if l.length ≤ n then [l]
  else l.take n :: listChunks n (l.drop n)
termination_by l.length
decreasing_by simp; omega

/-- The chunk loop of `_encode_silk` (lines 152-167 of `src/silk.rs`):
`for chunk in src.chunks(frame_size)`, breaking at the first chunk
shorter than `frame_size`, and for each full chunk appending the
little-endian `output_size` followed by `buf[0..output_size as usize]`. -/
def encodeChunks {σ : Type} (eng : EncEngine σ)
    (enc_control : SKP_SILK_SDK_EncControlStruct) (frame_size : Nat)
    (st : σ) (chunks : List (List UInt8)) (result : List UInt8) :
    Except SilkError (List UInt8) :=
  match chunks with
  | [] => .ok result
  | chunk :: restChunks =>
    if chunk.length < frame_size then .ok result
    else
      let r := eng.encode st enc_control chunk
      if r.code ≠ 0 then .error (SilkError.fromI32 r.code)
      else
        encodeChunks eng enc_control frame_size r.st restChunks
          (result ++ toLe16 r.nBytes ++ r.buf.take (usizeOfI16 r.nBytes))

/-- `_encode_silk` of `src/silk.rs`: build the encoder control record, run
`Get_Encoder_Size`/`InitEncoder` checks, emit the optional tencent flag
and the magic, then the chunk loop. -/
def _encode_silk {σ : Type} (eng : EncEngine σ) (src : List UInt8)
    (sample_rate bit_rate : Int) (tencent : Bool) :
    Except SilkError (List UInt8) :=
  let enc_control : SKP_SILK_SDK_EncControlStruct :=
    { API_sampleRate := sample_rate, maxInternalSampleRate := 24000,
      packetSize := Int.tdiv (20 * sample_rate) 1000, bitRate := bit_rate,
      packetLossPercentage := 0, complexity := 2,
      useInBandFEC := 0, useDTX := 0 }
  if eng.sizeCode ≠ 0 then .error (SilkError.fromI32 eng.sizeCode)
  else if eng.initCode ≠ 0 then .error (SilkError.fromI32 eng.initCode)
  else
    let header := (if tencent then [(2 : UInt8)] else []) ++ silkHeader
    let frame_size := usizeOfI32 sample_rate / 1000 * 40
    encodeChunks eng enc_control frame_size eng.init
      (listChunks frame_size src) header

/-- Concrete do-nothing decode engine (status 0 everywhere, empty
output), used to instantiate theorems at concrete inputs. -/
def trivDec : DecEngine Unit :=
  { sizeCode := 0, initCode := 0, init := ()
    decode := fun _ c _ =>
      { code := 0, st := (), ctrl := c, nSamples := 0, buf := [] } }

/-- Concrete do-nothing encode engine (status 0 everywhere, empty
output), used to instantiate theorems at concrete inputs. -/
def trivEnc : EncEngine Unit :=
  { sizeCode := 0, initCode := 0, init := ()
    encode := fun _ _ _ => { code := 0, st := (), nBytes := 0, buf := [] } }

/-! Pure numeric kernels of `src/pcm.rs`, with `f32`/`f64` samples
modelled as exact rationals. -/

/-- `AudioConverter::stereo_to_mono_mix`: average mix. -/
def stereo_to_mono_mix (left right : Rat) : Rat :=
  (left + right) * (1 / 2)

/-- Rust `f32::clamp(-1.0, 1.0)`. -/
def clampQ (x : Rat) : Rat :=
  if x < -1 then -1 else if 1 < x then 1 else x

/-- Rust `as i16` float-to-integer conversion for in-range values:
truncation toward zero. -/
def truncQ (x : Rat) : Int :=
  if 0 ≤ x then ⌊x⌋ else ⌈x⌉

/-- The per-sample quantizer inside
`AudioConverter::clean_samples_to_pcm_bytes` (lines 358-363 of
`src/pcm.rs`). -/
def quantizeSample (sample : Rat) : Int :=
  let clamped := clampQ sample
  if 0 ≤ clamped then truncQ (clamped * 32767 + 1 / 2)
  else truncQ (clamped * 32768 - 1 / 2)

/-- `AudioConverter::clean_samples_to_pcm_bytes`: quantize each sample and
emit its two little-endian bytes. -/
def clean_samples_to_pcm_bytes (samples : List Rat) : List UInt8 :=
  samples.flatMap fun sample => toLe16 (quantizeSample sample)

/-- `AudioConverter::resample` (lines 372-397 of `src/pcm.rs`): linear
interpolation rate conversion; float arithmetic modelled exactly over
the rationals. -/
def resample (samples : List Rat) (source_rate target_rate : Nat) : List Rat :=
  if source_rate = target_rate then samples
  else
    let ratio : Rat := (source_rate : Rat) / (target_rate : Rat)
    let target_len : Nat := (⌊(samples.length : Rat) / ratio⌋).toNat
    (List.range target_len).flatMap fun i =>
      let source_pos : Rat := (i : Rat) * ratio
      let idx : Nat := (⌊source_pos⌋).toNat
      if idx + 1 < samples.length then
        let frac : Rat := source_pos - (idx : Rat)
        [samples.getD idx 0 * (1 - frac) + samples.getD (idx + 1) 0 * frac]
      else if idx < samples.length then
        [samples.getD idx 0]
      else []

/-- One symphonia audio buffer as seen by `convert_buffer_to_f32`:
`frames` is `decoded.frames()` (the loop bound `duration`), `chans i` is
`buf.chan(i)`, and `chans.length` is `spec.channels.count()`. -/
structure RawBuffer (α : Type) where
  frames : Nat
  chans : List (List α)

/-- The `AudioBufferRef` tagged union restricted to the payloads
`convert_buffer_to_f32` reads.  Unsigned formats carry `Nat` samples,
signed formats carry `Int` samples, float formats carry exact `Rat`
samples. -/
inductive AudioBufferRef
  | U8 (b : RawBuffer Nat)
  | S8 (b : RawBuffer Int)
  | U16 (b : RawBuffer Nat)
  | S16 (b : RawBuffer Int)
  | U32 (b : RawBuffer Nat)
  | S32 (b : RawBuffer Int)
  | F32 (b : RawBuffer Rat)
  | F64 (b : RawBuffer Rat)

/-- Common body of the four dedicated match arms of
`convert_buffer_to_f32` (`S16`/`F32`/`U8`/`S32`): iterate
`0..duration.min(left_chan.len())`, mixing with the right channel where
it has a sample at the index and passing the left sample through
otherwise.  `norm` is the arm's per-format normalization formula and `d`
an (unreachable) default for guarded indexing. -/
def mixLoop {α : Type} (d : α) (norm : α → Rat) (need_mix_down : Prop)
    [Decidable need_mix_down] (duration : Nat) (chans : List (List α)) :
    List Rat :=
  let left_chan := chans.getD 0 []
  let right_chan : Option (List α) :=
    if need_mix_down ∧ 1 < chans.length then some (chans.getD 1 []) else none
  (List.range (min duration left_chan.length)).map fun i =>
    let left := norm (left_chan.getD i d)
    match right_chan with
    | some right_data =>
      if i < right_data.length then
        stereo_to_mono_mix left (norm (right_data.getD i d))
      else left
    | none => left

/-- Common body of the generic fallback arm of `convert_buffer_to_f32`
(`U16`/`U32`/`S8`/`F64`): iterate `0..duration`, substituting `0.0` for
any index past the end of a channel array. -/
def fallbackLoop {α : Type} (d : α) (norm : α → Rat) (need_mix_down : Prop)
    [Decidable need_mix_down] (duration : Nat) (chans : List (List α)) :
    List Rat :=
  (List.range duration).map fun i =>
    let c0 := chans.getD 0 []
    let sample := if i < c0.length then norm (c0.getD i d) else 0
    if need_mix_down then
      let c1 := chans.getD 1 []
      let right_sample := if i < c1.length then norm (c1.getD i d) else 0
      stereo_to_mono_mix sample right_sample
    else sample

/-- `need_mix_down` for a buffer with `count` channel arrays:
`source_channels > 1 && self.target_channels == 1 && channels_count > 1`. -/
def needMixDown (target_channels source_channels count : Nat) : Prop :=
  1 < source_channels ∧ target_channels = 1 ∧ 1 < count

instance (tc sc count : Nat) : Decidable (needMixDown tc sc count) := by
  unfold needMixDown; infer_instance

/-- `AudioConverter::convert_buffer_to_f32` (lines 160-333 of
`src/pcm.rs`), with the converter's `target_channels` passed explicitly;
per-format normalization formulas transcribed literally over `Rat`. -/
def convert_buffer_to_f32 (target_channels source_channels : Nat) :
    AudioBufferRef → List Rat
  | .S16 b => mixLoop 0 (fun x : Int => (x : Rat) / 32768)
      (needMixDown target_channels source_channels b.chans.length)
      b.frames b.chans
  | .F32 b => mixLoop 0 (fun x : Rat => x)
      (needMixDown target_channels source_channels b.chans.length)
      b.frames b.chans
  | .U8 b => mixLoop 0 (fun x : Nat => ((x : Rat) - 128) / 128)
      (needMixDown target_channels source_channels b.chans.length)
      b.frames b.chans
  | .S32 b => mixLoop 0 (fun x : Int => (x : Rat) / 2147483648)
      (needMixDown target_channels source_channels b.chans.length)
      b.frames b.chans
  | .U16 b => fallbackLoop 0 (fun x : Nat => ((x : Rat) - 32768) / 32768)
      (needMixDown target_channels source_channels b.chans.length)
      b.frames b.chans
  | .U32 b => fallbackLoop 0 (fun x : Nat => ((x : Rat) - 2147483648) / 2147483648)
      (needMixDown target_channels source_channels b.chans.length)
      b.frames b.chans
  | .S8 b => fallbackLoop 0 (fun x : Int => (x : Rat) / 128)
      (needMixDown target_channels source_channels b.chans.length)
      b.frames b.chans
  | .F64 b => fallbackLoop 0 (fun x : Rat => x)
      (needMixDown target_channels source_channels b.chans.length)
      b.frames b.chans

/-- Wire format of a frame sequence: each frame is its 16-bit
little-endian length followed by its payload bytes. -/
def serializeFrames (frames : List (List UInt8)) : List UInt8 :=
  frames.flatMap fun f => toLe16 (f.length : Int) ++ f

/-- Per-frame engine outcomes along the decode loop: for each frame, the
`output_size as usize` sample count and the slice
`buf[0..output_size as usize * 2]` that the loop appends. -/
def engineOutputs {σ : Type} (eng : DecEngine σ) :
    σ → SKP_SILK_SDK_DecControlStruct → List (List UInt8) →
    List (Nat × List UInt8)
  | _, _, [] => []
  | st, ctrl, f :: fs =>
    let r := eng.decode st ctrl f
    (usizeOfI16 r.nSamples, r.buf.take (usizeOfI16 r.nSamples * 2))
      :: engineOutputs eng r.st r.ctrl fs

/-- The maximal run of successive full `n`-byte chunks of `l` (the
chunks the encode loop actually processes before its break). -/
def fullChunks (n : Nat) (l : List UInt8) : List (List UInt8) :=
  if _h : 0 < n ∧ n ≤ l.length then l.take n :: fullChunks n (l.drop n)
  else []
termination_by l.length
decreasing_by simp; omega

/-- Per-chunk engine outcomes along the encode loop: for each chunk, the
written `output_size` and the slice `buf[0..output_size as usize]`. -/
def encOutputs {σ : Type} (eng : EncEngine σ)
    (ctrl : SKP_SILK_SDK_EncControlStruct) :
    σ → List (List UInt8) → List (Int × List UInt8)
  | _, [] => []
  | st, c :: cs =>
    let r := eng.encode st ctrl c
    (r.nBytes, r.buf.take (usizeOfI16 r.nBytes)) :: encOutputs eng ctrl r.st cs

/-! Theorems -/

/-- `UInt8.ofNat` reduces modulo 256. -/
lemma toNat_ofNat8 (n : Nat) : (UInt8.ofNat n).toNat = n % 256 := rfl

/-- The signed 16-bit value read from two bytes lies in the `i16` range. -/
lemma getI16le_bounds (b0 b1 : UInt8) :
    -32768 ≤ getI16le b0 b1 ∧ getI16le b0 b1 ≤ 32767 := by
  have h0 := UInt8.toNat_lt b0
  have h1 := UInt8.toNat_lt b1
  simp only [getI16le]
  split_ifs <;> constructor <;> omega

/-- The `as i16` wrap is the identity below `2^15`. -/
lemma i16OfNat_of_lt {n : Nat} (h : n < 32768) : i16OfNat n = n := by
  have hm : n % 65536 = n := Nat.mod_eq_of_lt (by omega)
  simp only [i16OfNat, hm]
  rw [if_pos h]

/-- The `as usize` cast is `toNat` on nonnegative in-range values. -/
lemma usizeOfI16_toNat {x : Int} (h0 : 0 ≤ x) (h1 : x < 2 ^ 64) :
    usizeOfI16 x = x.toNat := by
  simp only [usizeOfI16]; omega

/-- The `as usize` cast sign-extends a negative `i16` value to a huge
`usize` value. -/
lemma usizeOfI16_neg {x : Int} (h0 : -32768 ≤ x) (h1 : x < 0) :
    usizeOfI16 x = (x + 2 ^ 64).toNat := by
  simp only [usizeOfI16]; omega

/-- The `as usize` cast is `toNat` on nonnegative in-range values. -/
lemma usizeOfI32_toNat {x : Int} (h0 : 0 ≤ x) (h1 : x < 2 ^ 64) :
    usizeOfI32 x = x.toNat := by
  simp only [usizeOfI32]; omega

/-- A list is a `isPrefixOf`-prefix of itself followed by anything. -/
lemma isPrefixOf_self_append (l t : List UInt8) :
    l.isPrefixOf (l ++ t) = true := by
  rw [List.isPrefixOf_iff_prefix]
  exact List.prefix_append l t

/-- The tencent-flag test `src.starts_with(&[0x02])` holds exactly when
the first byte equals `0x02`. -/
lemma flagPrefix_iff_head (src : List UInt8) :
    ([(2 : UInt8)].isPrefixOf src = true) ↔ src.head? = some 2 := by
  cases src with
  | nil => simp [List.isPrefixOf]
  | cons a t =>
    show ((2 == a) && List.isPrefixOf [] t) = true ↔ some a = some 2
    simp only [List.isPrefixOf, Bool.and_true, beq_iff_eq, Option.some.injEq]
    exact eq_comm

/-- A buffer that starts with the magic does not start with the flag
byte. -/
lemma silkHeader_no_flag (t : List UInt8) :
    [(2 : UInt8)].isPrefixOf (silkHeader ++ t) = false := rfl

/-- The clamped value always lies in `[-1, 1]`. -/
lemma clampQ_bounds (s : Rat) : -1 ≤ clampQ s ∧ clampQ s ≤ 1 := by
  unfold clampQ
  split_ifs <;> constructor <;> linarith

/-- C9: the codec-engine status-to-error mapping sends codes `-1`
through `-12` respectively and injectively to the twelve named kinds,
with no gaps or collisions, and every other code maps to `Other(code)`
carrying that code. -/
theorem c9_status_code_mapping :
    (SilkError.fromI32 (-1) = .EncInputInvalidNoOfSamples ∧
     SilkError.fromI32 (-2) = .EncFsNotSupported ∧
     SilkError.fromI32 (-3) = .EncPacketSizeNotSupported ∧
     SilkError.fromI32 (-4) = .EncPayloadBufTooShort ∧
     SilkError.fromI32 (-5) = .EncInvalidLossRate ∧
     SilkError.fromI32 (-6) = .EncInvalidComplexitySetting ∧
     SilkError.fromI32 (-7) = .EncInvalidInbandFecSetting ∧
     SilkError.fromI32 (-8) = .EncInvalidDtxSetting ∧
     SilkError.fromI32 (-9) = .EncInternalError ∧
     SilkError.fromI32 (-10) = .DecInvalidSamplingFrequency ∧
     SilkError.fromI32 (-11) = .DecPayloadTooLarge ∧
     SilkError.fromI32 (-12) = .DecPayloadError) ∧
    ([SilkError.fromI32 (-1), SilkError.fromI32 (-2), SilkError.fromI32 (-3),
      SilkError.fromI32 (-4), SilkError.fromI32 (-5), SilkError.fromI32 (-6),
      SilkError.fromI32 (-7), SilkError.fromI32 (-8), SilkError.fromI32 (-9),
      SilkError.fromI32 (-10), SilkError.fromI32 (-11),
      SilkError.fromI32 (-12)].Pairwise (· ≠ ·)) ∧
    ∀ code : Int, code < -12 ∨ -1 < code →
      SilkError.fromI32 code = .Other code := by
  refine ⟨by simp [SilkError.fromI32], ?_, ?_⟩
  · simp only [SilkError.fromI32]
    decide
  · intro code h
    simp only [SilkError.fromI32]
    repeat rw [if_neg (by omega)]

/-- C9 witness: code `-99` maps to `Other (-99)`. -/
theorem c9_witness : SilkError.fromI32 (-99) = .Other (-99) :=
  c9_status_code_mapping.2.2 (-99) (by decide)

/-- C5: the PCM serializer clamps each sample to `[-1, 1]`, quantizes a
nonnegative clamped value as `v*32767 + 0.5` truncated and a negative
one as `v*32768 - 0.5` truncated, emits two little-endian bytes, the
result always fits in a signed 16-bit integer, and `1.0`, `-1.0`, `0.0`
serialize to `32767`, `-32768`, `0`. -/
theorem c5_pcm_serializer :
    (∀ s : Rat,
      -32768 ≤ quantizeSample s ∧ quantizeSample s ≤ 32767 ∧
      clean_samples_to_pcm_bytes [s] = toLe16 (quantizeSample s)) ∧
    quantizeSample 1 = 32767 ∧
    quantizeSample (-1) = -32768 ∧
    quantizeSample 0 = 0 ∧
    clean_samples_to_pcm_bytes [1, -1, 0] = [255, 127, 0, 128, 0, 0] := by
  have hrange : ∀ s : Rat,
      -32768 ≤ quantizeSample s ∧ quantizeSample s ≤ 32767 := by
    intro s
    obtain ⟨hlo, hhi⟩ := clampQ_bounds s
    by_cases h0 : 0 ≤ clampQ s
    · have e : quantizeSample s = ⌊clampQ s * 32767 + 1 / 2⌋ := by
        simp only [quantizeSample, truncQ]
        rw [if_pos h0, if_pos (by linarith)]
      rw [e]
      have hl : (0 : Int) ≤ ⌊clampQ s * 32767 + 1 / 2⌋ := by
        rw [Int.le_floor]; push_cast; linarith
      have hu : ⌊clampQ s * 32767 + 1 / 2⌋ < 32768 := by
        rw [Int.floor_lt]; push_cast; linarith
      omega
    · push_neg at h0
      have hneg : clampQ s * 32768 < 0 :=
        mul_neg_of_neg_of_pos h0 (by norm_num)
      have e : quantizeSample s = ⌈clampQ s * 32768 - 1 / 2⌉ := by
        simp only [quantizeSample, truncQ]
        rw [if_neg (by linarith), if_neg (by linarith)]
      rw [e]
      have hl : (-32769 : Int) < ⌈clampQ s * 32768 - 1 / 2⌉ := by
        rw [Int.lt_ceil]; push_cast; linarith
      have hu : ⌈clampQ s * 32768 - 1 / 2⌉ ≤ 32767 := by
        rw [Int.ceil_le]; push_cast; linarith
      omega
  have h1 : quantizeSample 1 = 32767 := by
    norm_num [quantizeSample, clampQ, truncQ]
  have h2 : quantizeSample (-1) = -32768 := by
    norm_num [quantizeSample, clampQ, truncQ]
    rw [Int.ceil_eq_iff]
    norm_num
  have h3 : quantizeSample 0 = 0 := by
    norm_num [quantizeSample, clampQ, truncQ]
  refine ⟨fun s => ⟨(hrange s).1, (hrange s).2, ?_⟩, h1, h2, h3, ?_⟩
  · simp [clean_samples_to_pcm_bytes]
  · simp [clean_samples_to_pcm_bytes, h1, h2, h3]
    decide

/-- On a mono single-sample buffer the dedicated-arm loop yields exactly
the normalized sample. -/
lemma mixLoop_one {α : Type} (d : α) (norm : α → Rat) (nm : Prop)
    [Decidable nm] (x : α) : mixLoop d norm nm 1 [[x]] = [norm x] := by
  unfold mixLoop
  rw [if_neg (by simp)]
  simp [List.range_succ]

/-- On a mono single-sample buffer the fallback-arm loop yields exactly
the normalized sample, provided downmixing is off. -/
lemma fallbackLoop_one {α : Type} (d : α) (norm : α → Rat) (nm : Prop)
    [Decidable nm] (h : ¬ nm) (x : α) :
    fallbackLoop d norm nm 1 [[x]] = [norm x] := by
  unfold fallbackLoop
  simp [h, List.range_succ]

/-- A sample-count-1 `needMixDown` is false when `source_channels = 1`. -/
lemma needMixDown_mono (tc count : Nat) : ¬ needMixDown tc 1 count := by
  simp [needMixDown]

/-- C8: per-format normalization formulas of `convert_buffer_to_f32`,
checked through a mono single-sample buffer of each of the eight
formats (`f64` narrowing is the identity in the exact-rational model). -/
theorem c8_normalizer_formulas :
    (∀ x : Nat, convert_buffer_to_f32 1 1 (.U8 ⟨1, [[x]]⟩)
        = [((x : Rat) - 128) / 128]) ∧
    (∀ x : Int, convert_buffer_to_f32 1 1 (.S8 ⟨1, [[x]]⟩)
        = [(x : Rat) / 128]) ∧
    (∀ x : Nat, convert_buffer_to_f32 1 1 (.U16 ⟨1, [[x]]⟩)
        = [((x : Rat) - 32768) / 32768]) ∧
    (∀ x : Int, convert_buffer_to_f32 1 1 (.S16 ⟨1, [[x]]⟩)
        = [(x : Rat) / 32768]) ∧
    (∀ x : Nat, convert_buffer_to_f32 1 1 (.U32 ⟨1, [[x]]⟩)
        = [((x : Rat) - 2147483648) / 2147483648]) ∧
    (∀ x : Int, convert_buffer_to_f32 1 1 (.S32 ⟨1, [[x]]⟩)
        = [(x : Rat) / 2147483648]) ∧
    (∀ x : Rat, convert_buffer_to_f32 1 1 (.F32 ⟨1, [[x]]⟩) = [x]) ∧
    (∀ x : Rat, convert_buffer_to_f32 1 1 (.F64 ⟨1, [[x]]⟩) = [x]) := by
  refine ⟨?_, ?_, ?_, ?_, ?_, ?_, ?_, ?_⟩ <;> intro x <;>
    simp only [convert_buffer_to_f32] <;>
    first
      | rw [mixLoop_one]
      | rw [fallbackLoop_one _ _ _ (needMixDown_mono _ _)]

/-- C2: `decode_silk` consumes a single leading `0x02` byte exactly when
it is present; after that it fails with `Invalid` exactly when the next
9 bytes are not the magic `#!SILK_V3`, and otherwise consumes the magic
and proceeds to frame parsing on the remaining bytes. -/
theorem c2_magic_header {σ : Type} (eng : DecEngine σ) (src : List UInt8)
    (sample_rate : Int) :
    (([(2 : UInt8)].isPrefixOf src = true) ↔ src.head? = some 2) ∧
    (¬ silkHeader.isPrefixOf
        (if [(2 : UInt8)].isPrefixOf src then src.drop 1 else src) →
      _decode_silk eng src sample_rate = .error SilkError.Invalid) ∧
    (silkHeader.isPrefixOf
        (if [(2 : UInt8)].isPrefixOf src then src.drop 1 else src) →
      _decode_silk eng src sample_rate
        = decodeAfterHeader eng
            ((if [(2 : UInt8)].isPrefixOf src then src.drop 1 else src).drop 9)
            sample_rate) := by
  refine ⟨flagPrefix_iff_head src, ?_, ?_⟩
  · intro h
    simp only [_decode_silk]
    rw [if_neg h]
  · intro h
    simp only [_decode_silk]
    rw [if_pos h]
    rfl

/-- C2 witness: a buffer missing the magic header (the ASCII bytes of
`not-silk`) decodes to `Invalid`. -/
theorem c2_witness :
    _decode_silk trivDec [110, 111, 116, 45, 115, 105, 108, 107] 24000
      = .error SilkError.Invalid :=
  (c2_magic_header trivDec [110, 111, 116, 45, 115, 105, 108, 107] 24000).2.1
    (by decide)

/-- C1: if the frame length read in the decode loop exceeds the maximum
frame size `sampleRate/1000*40`, or fewer bytes than the declared length
remain after the length field, the loop — and `decode_silk` on a buffer
whose first frame is such a frame — returns `Invalid`. -/
theorem c1_frame_length_validation {σ : Type} (eng : DecEngine σ)
    (sample_rate : Int) (b0 b1 : UInt8) (rest : List UInt8)
    (hsr0 : 0 ≤ sample_rate) (hsr1 : sample_rate < 2 ^ 31)
    (hbad : getI16le b0 b1 > ((sample_rate.toNat / 1000 * 40 : Nat) : Int)
          ∨ (rest.length : Int) < getI16le b0 b1) :
    (∀ (st : σ) (ctrl : SKP_SILK_SDK_DecControlStruct) (result : List UInt8),
      decodeFrames eng (sample_rate.toNat / 1000 * 40) st ctrl
        (b0 :: b1 :: rest) result = .error SilkError.Invalid) ∧
    (eng.sizeCode = 0 → eng.initCode = 0 →
      _decode_silk eng (silkHeader ++ b0 :: b1 :: rest) sample_rate
        = .error SilkError.Invalid) := by
  obtain ⟨hL0, hL1⟩ := getI16le_bounds b0 b1
  have main : ∀ (st : σ) (ctrl : SKP_SILK_SDK_DecControlStruct)
      (result : List UInt8),
      decodeFrames eng (sample_rate.toNat / 1000 * 40) st ctrl
        (b0 :: b1 :: rest) result = .error SilkError.Invalid := by
    intro st ctrl result
    rw [decodeFrames]
    by_cases hc1 :
        getI16le b0 b1 > i16OfNat (sample_rate.toNat / 1000 * 40)
    · rw [if_pos hc1]
    · rw [if_neg hc1]
      have hb : (rest.length : Int) < getI16le b0 b1 := by
        rcases hbad with h | h
        · exfalso
          apply hc1
          have hlt : sample_rate.toNat / 1000 * 40 < 32768 := by omega
          rw [i16OfNat_of_lt hlt]
          exact h
        · exact h
      have hpos : 0 < getI16le b0 b1 := by
        have h0 : (0 : Int) ≤ (rest.length : Int) := by positivity
        omega
      have h2 : rest.length < usizeOfI16 (getI16le b0 b1) := by
        rw [usizeOfI16_toNat (by omega) (by omega)]
        omega
      rw [if_pos h2]
  refine ⟨main, fun hs hi => ?_⟩
  simp only [_decode_silk]
  rw [silkHeader_no_flag]
  simp only [Bool.false_eq_true, if_false]
  rw [if_pos (isPrefixOf_self_append silkHeader (b0 :: b1 :: rest))]
  simp only [decodeAfterHeader]
  rw [if_neg (not_not_intro hs), if_neg (not_not_intro hi)]
  rw [List.drop_left]
  rw [usizeOfI32_toNat hsr0 (by omega)]
  exact main eng.init _ []

/-- C1 witness: a frame declaring length `0x7FFF = 32767 > 960` at the
24000 Hz maximum frame size decodes to `Invalid`. -/
theorem c1_witness :
    _decode_silk trivDec (silkHeader ++ [255, 127]) 24000
      = .error SilkError.Invalid :=
  (c1_frame_length_validation trivDec 24000 255 127 [] (by norm_num)
    (by norm_num) (Or.inl (by decide))).2 rfl rfl

/-- C10: a length field of `0x8000` or above is read as a negative signed
16-bit value; it passes the maximum-frame-size comparison, the
remaining-bytes check fails against its huge `as usize` sign extension
(no slicing ever happens), and the loop returns `Invalid`.  Stated for
maximum frame sizes within the `i16` range and for buffers within Rust's
`isize::MAX` slice-length bound. -/
theorem c10_negative_length_field {σ : Type} (eng : DecEngine σ) (st : σ)
    (ctrl : SKP_SILK_SDK_DecControlStruct) (frame_size : Nat)
    (b0 b1 : UInt8) (rest result : List UInt8)
    (hb1 : 128 ≤ b1.toNat) (hfsz : frame_size ≤ 32767)
    (hrest : rest.length < 2 ^ 63) :
    getI16le b0 b1 < 0 ∧
    ¬ getI16le b0 b1 > i16OfNat frame_size ∧
    rest.length < usizeOfI16 (getI16le b0 b1) ∧
    decodeFrames eng frame_size st ctrl (b0 :: b1 :: rest) result
      = .error SilkError.Invalid := by
  obtain ⟨hL0, hL1⟩ := getI16le_bounds b0 b1
  have hneg : getI16le b0 b1 < 0 := by
    have h0 := UInt8.toNat_lt b0
    have h1 := UInt8.toNat_lt b1
    simp only [getI16le]
    split_ifs <;> omega
  have hc1 : ¬ getI16le b0 b1 > i16OfNat frame_size := by
    rw [i16OfNat_of_lt (by omega)]
    omega
  have hc2 : rest.length < usizeOfI16 (getI16le b0 b1) := by
    rw [usizeOfI16_neg (by omega) hneg]
    omega
  refine ⟨hneg, hc1, hc2, ?_⟩
  rw [decodeFrames]
  rw [if_neg hc1, if_pos hc2]

/-- C10 witness: length field bytes `0x00 0xFF` (value `-256` as `i16`)
with an empty remainder decode to `Invalid` at frame size 960. -/
theorem c10_witness :
    decodeFrames trivDec 960 ()
      { API_sampleRate := 24000, frameSize := 0, framesPerPacket := 1,
        moreInternalDecoderFrames := 0, inBandFECOffset := 0 }
      [0, 255] [] = .error SilkError.Invalid :=
  (c10_negative_length_field trivDec ()
    { API_sampleRate := 24000, frameSize := 0, framesPerPacket := 1,
      moreInternalDecoderFrames := 0, inBandFECOffset := 0 }
    960 0 255 [] [] (by decide) (by norm_num) (by norm_num)).2.2.2

/-- A `flatMap` whose function always yields singletons preserves
length. -/
lemma length_flatMap_of_one {α β : Type} (l : List α) (f : α → List β)
    (h : ∀ a ∈ l, (f a).length = 1) : (l.flatMap f).length = l.length := by
  induction l with
  | nil => rfl
  | cons a t ih =>
    simp only [List.flatMap_cons, List.length_append, List.length_cons]
    rw [h a (List.mem_cons_self a t), ih fun b hb => h b (List.mem_cons_of_mem a hb)]
    omega

/-- C6: `resample` is the identity when the rates are equal, and
otherwise the output length is `floor(N / r)` with `r = src/tgt`
(arithmetic exact over the rationals). -/
theorem c6_resample_length :
    (∀ (samples : List Rat) (r : Nat), resample samples r r = samples) ∧
    (∀ (samples : List Rat) (src tgt : Nat), src ≠ tgt → 0 < src → 0 < tgt →
      (resample samples src tgt).length
        = (⌊(samples.length : Rat) / ((src : Rat) / (tgt : Rat))⌋).toNat) := by
  constructor
  · intro samples r
    simp [resample]
  · intro samples src tgt hne hsrc htgt
    simp only [resample]
    rw [if_neg hne]
    refine (length_flatMap_of_one _ _ ?_).trans (List.length_range _)
    intro i hi
    rw [List.mem_range] at hi
    have hratio : (0 : Rat) < (src : Rat) / (tgt : Rat) := by
      apply div_pos <;> exact_mod_cast ‹_›
    have hfl0 : (0 : Rat) ≤ (samples.length : Rat) / ((src : Rat) / (tgt : Rat)) := by
      positivity
    have hi' : (i : Int) + 1
        ≤ ⌊(samples.length : Rat) / ((src : Rat) / (tgt : Rat))⌋ := by
      have h0 : 0 ≤ ⌊(samples.length : Rat) / ((src : Rat) / (tgt : Rat))⌋ :=
        Int.floor_nonneg.mpr hfl0
      omega
    have hile : ((i : Rat) + 1)
        ≤ (samples.length : Rat) / ((src : Rat) / (tgt : Rat)) := by
      have h := Int.le_floor.mp hi'
      push_cast at h
      exact h
    have hmul : ((i : Rat) + 1) * ((src : Rat) / (tgt : Rat))
        ≤ (samples.length : Rat) := by
      rw [le_div_iff₀ hratio] at hile
      exact hile
    have hlt : (i : Rat) * ((src : Rat) / (tgt : Rat))
        < (samples.length : Rat) := by nlinarith
    have hfloor : ⌊(i : Rat) * ((src : Rat) / (tgt : Rat))⌋
        < (samples.length : Int) := Int.floor_lt.mpr (by exact_mod_cast hlt)
    have hfloor0 : 0 ≤ ⌊(i : Rat) * ((src : Rat) / (tgt : Rat))⌋ :=
      Int.floor_nonneg.mpr (by positivity)
    have hidx : (⌊(i : Rat) * ((src : Rat) / (tgt : Rat))⌋).toNat
        < samples.length := by omega
    split_ifs with h1
    · rfl
    · rfl

/-- C6 witness: downsampling four samples from 48000 Hz to 24000 Hz
yields `floor(4 / 2) = 2` samples. -/
theorem c6_witness :
    (resample [0, 0, 0, 0] 48000 24000).length
      = (⌊(([0, 0, 0, 0] : List Rat).length : Rat)
          / ((48000 : Rat) / (24000 : Rat))⌋).toNat :=
  c6_resample_length.2 [0, 0, 0, 0] 48000 24000 (by decide) (by decide)
    (by decide)

/-- The dedicated-arm loop, characterized index-wise: length is bounded
by duration and the left channel only; an index is mixed exactly when
downmixing is on and the right channel has a sample there, and the left
sample passes through unmixed otherwise. -/
lemma mixLoop_needMix_eq_map {α : Type} (tc sc : Nat) (d : α)
    (norm : α → Rat) (duration : Nat) (chans : List (List α)) :
    mixLoop d norm (needMixDown tc sc chans.length) duration chans
      = (List.range (min duration (chans.getD 0 []).length)).map fun i =>
          if needMixDown tc sc chans.length ∧ i < (chans.getD 1 []).length then
            (norm ((chans.getD 0 []).getD i d)
             + norm ((chans.getD 1 []).getD i d)) * (1 / 2)
          else norm ((chans.getD 0 []).getD i d) := by
  unfold mixLoop stereo_to_mono_mix
  by_cases h : needMixDown tc sc chans.length
  · have hcnt : 1 < chans.length := h.2.2
    rw [if_pos ⟨h, hcnt⟩]
    refine List.map_congr_left fun i hi => ?_
    show (if i < (chans.getD 1 []).length
        then (norm ((chans.getD 0 []).getD i d)
             + norm ((chans.getD 1 []).getD i d)) * (1 / 2)
        else norm ((chans.getD 0 []).getD i d)) = _
    by_cases h2 : i < (chans.getD 1 []).length
    · rw [if_pos h2, if_pos ⟨h, h2⟩]
    · rw [if_neg h2, if_neg fun hc => h2 hc.2]
  · rw [if_neg fun hc => h hc.1]
    refine List.map_congr_left fun i hi => ?_
    show norm ((chans.getD 0 []).getD i d) = _
    rw [if_neg fun hc => h hc.1]

/-- The fallback-arm loop, characterized index-wise: length is the full
duration; a channel missing a sample at an index contributes `0.0`, so
when downmixing is on the mix never passes a left sample through
unmixed. -/
lemma fallbackLoop_eq_map {α : Type} (d : α) (norm : α → Rat) (nm : Prop)
    [Decidable nm] (duration : Nat) (chans : List (List α)) :
    fallbackLoop d norm nm duration chans
      = (List.range duration).map fun i =>
          if nm then
            ((if i < (chans.getD 0 []).length
                then norm ((chans.getD 0 []).getD i d) else 0)
             + (if i < (chans.getD 1 []).length
                then norm ((chans.getD 1 []).getD i d) else 0)) * (1 / 2)
          else (if i < (chans.getD 0 []).length
                then norm ((chans.getD 0 []).getD i d) else 0) := rfl

/-- C7 counterexample: an eligible signed-8-bit buffer (2 source
channels, 1 target channel, duration 2) whose right channel is shorter.
The code yields `[1/2, 1/4]`: the trailing left sample `64` (normalized
`64/128 = 1/2`) is mixed with a substituted `0.0` — it does not pass
through unmixed — and the output length is 2, not bounded by the
shortest channel array (length 1). -/
theorem c7_counterexample :
    convert_buffer_to_f32 1 2 (.S8 ⟨2, [[64, 64], [64]]⟩) = [1 / 2, 1 / 4] ∧
    (convert_buffer_to_f32 1 2 (.S8 ⟨2, [[64, 64], [64]]⟩)).getD 1 0
      ≠ ((64 : Int) : Rat) / 128 ∧
    (convert_buffer_to_f32 1 2 (.S8 ⟨2, [[64, 64], [64]]⟩)).length ≠ 1 := by
  have h : convert_buffer_to_f32 1 2 (.S8 ⟨2, [[64, 64], [64]]⟩)
      = [1 / 2, 1 / 4] := by
    simp only [convert_buffer_to_f32]
    rw [fallbackLoop_eq_map]
    norm_num [needMixDown, List.range_succ]
  refine ⟨h, ?_, ?_⟩
  · rw [h]; norm_num
  · rw [h]; norm_num

/-- C7 amended: for the dedicated-arm formats (U8, S16, S32, F32) the
output has length `min duration leftLen`, eligible indexes with a right
sample are mixed as `(left+right)*0.5` after normalization, and
remaining left samples pass through unmixed; for the fallback formats
(S8, U16, U32, F64) the output has length `duration`, a channel missing
a sample contributes `0.0`, and when eligible every sample is mixed (a
left sample never passes through unmixed); when not eligible the output
is the left channel only (zero-filled up to `duration` for fallback
formats). -/
theorem c7_amended_downmix :
    (∀ (tc sc : Nat) (b : RawBuffer Nat),
      convert_buffer_to_f32 tc sc (.U8 b)
        = (List.range (min b.frames (b.chans.getD 0 []).length)).map fun i =>
            if needMixDown tc sc b.chans.length
                ∧ i < (b.chans.getD 1 []).length then
              ((((b.chans.getD 0 []).getD i 0 : Nat) - 128 : Rat) / 128
               + (((b.chans.getD 1 []).getD i 0 : Nat) - 128 : Rat) / 128)
                * (1 / 2)
            else (((b.chans.getD 0 []).getD i 0 : Nat) - 128 : Rat) / 128) ∧
    (∀ (tc sc : Nat) (b : RawBuffer Int),
      convert_buffer_to_f32 tc sc (.S16 b)
        = (List.range (min b.frames (b.chans.getD 0 []).length)).map fun i =>
            if needMixDown tc sc b.chans.length
                ∧ i < (b.chans.getD 1 []).length then
              ((((b.chans.getD 0 []).getD i 0 : Int) : Rat) / 32768
               + (((b.chans.getD 1 []).getD i 0 : Int) : Rat) / 32768)
                * (1 / 2)
            else (((b.chans.getD 0 []).getD i 0 : Int) : Rat) / 32768) ∧
    (∀ (tc sc : Nat) (b : RawBuffer Int),
      convert_buffer_to_f32 tc sc (.S32 b)
        = (List.range (min b.frames (b.chans.getD 0 []).length)).map fun i =>
            if needMixDown tc sc b.chans.length
                ∧ i < (b.chans.getD 1 []).length then
              ((((b.chans.getD 0 []).getD i 0 : Int) : Rat) / 2147483648
               + (((b.chans.getD 1 []).getD i 0 : Int) : Rat) / 2147483648)
                * (1 / 2)
            else (((b.chans.getD 0 []).getD i 0 : Int) : Rat) / 2147483648) ∧
    (∀ (tc sc : Nat) (b : RawBuffer Rat),
      convert_buffer_to_f32 tc sc (.F32 b)
        = (List.range (min b.frames (b.chans.getD 0 []).length)).map fun i =>
            if needMixDown tc sc b.chans.length
                ∧ i < (b.chans.getD 1 []).length then
              ((b.chans.getD 0 []).getD i 0 + (b.chans.getD 1 []).getD i 0)
                * (1 / 2)
            else (b.chans.getD 0 []).getD i 0) ∧
    (∀ (tc sc : Nat) (b : RawBuffer Int),
      convert_buffer_to_f32 tc sc (.S8 b)
        = (List.range b.frames).map fun i =>
            if needMixDown tc sc b.chans.length then
              ((if i < (b.chans.getD 0 []).length
                  then (((b.chans.getD 0 []).getD i 0 : Int) : Rat) / 128
                  else 0)
               + (if i < (b.chans.getD 1 []).length
                  then (((b.chans.getD 1 []).getD i 0 : Int) : Rat) / 128
                  else 0)) * (1 / 2)
            else (if i < (b.chans.getD 0 []).length
                  then (((b.chans.getD 0 []).getD i 0 : Int) : Rat) / 128
                  else 0)) ∧
    (∀ (tc sc : Nat) (b : RawBuffer Nat),
      convert_buffer_to_f32 tc sc (.U16 b)
        = (List.range b.frames).map fun i =>
            if needMixDown tc sc b.chans.length then
              ((if i < (b.chans.getD 0 []).length
                  then (((b.chans.getD 0 []).getD i 0 : Nat) - 32768 : Rat) / 32768
                  else 0)
               + (if i < (b.chans.getD 1 []).length
                  then (((b.chans.getD 1 []).getD i 0 : Nat) - 32768 : Rat) / 32768
                  else 0)) * (1 / 2)
            else (if i < (b.chans.getD 0 []).length
                  then (((b.chans.getD 0 []).getD i 0 : Nat) - 32768 : Rat) / 32768
                  else 0)) ∧
    (∀ (tc sc : Nat) (b : RawBuffer Nat),
      convert_buffer_to_f32 tc sc (.U32 b)
        = (List.range b.frames).map fun i =>
            if needMixDown tc sc b.chans.length then
              ((if i < (b.chans.getD 0 []).length
                  then (((b.chans.getD 0 []).getD i 0 : Nat) - 2147483648 : Rat)
                    / 2147483648
                  else 0)
               + (if i < (b.chans.getD 1 []).length
                  then (((b.chans.getD 1 []).getD i 0 : Nat) - 2147483648 : Rat)
                    / 2147483648
                  else 0)) * (1 / 2)
            else (if i < (b.chans.getD 0 []).length
                  then (((b.chans.getD 0 []).getD i 0 : Nat) - 2147483648 : Rat)
                    / 2147483648
                  else 0)) ∧
    (∀ (tc sc : Nat) (b : RawBuffer Rat),
      convert_buffer_to_f32 tc sc (.F64 b)
        = (List.range b.frames).map fun i =>
            if needMixDown tc sc b.chans.length then
              ((if i < (b.chans.getD 0 []).length
                  then (b.chans.getD 0 []).getD i 0 else 0)
               + (if i < (b.chans.getD 1 []).length
                  then (b.chans.getD 1 []).getD i 0 else 0)) * (1 / 2)
            else (if i < (b.chans.getD 0 []).length
                  then (b.chans.getD 0 []).getD i 0 else 0)) := by
  refine ⟨?_, ?_, ?_, ?_, ?_, ?_, ?_, ?_⟩ <;> intro tc sc b <;>
    simp only [convert_buffer_to_f32] <;>
    first
      | exact mixLoop_needMix_eq_map tc sc _ _ b.frames b.chans
      | exact fallbackLoop_eq_map _ _ _ b.frames b.chans

/-- Serialization of a frame length below `2^15` produces its two
little-endian bytes. -/
lemma toLe16_ofNat {m : Nat} (h : m < 32768) :
    toLe16 (m : Int) = [UInt8.ofNat (m % 256), UInt8.ofNat (m / 256)] := by
  simp only [toLe16]
  have hn : ((m : Int) % 65536).toNat = m := by omega
  rw [hn]

/-- Reading back the two little-endian bytes of a length below `2^15`
recovers it. -/
lemma getI16le_bytes {m : Nat} (h : m < 32768) :
    getI16le (UInt8.ofNat (m % 256)) (UInt8.ofNat (m / 256)) = m := by
  simp only [getI16le, toNat_ofNat8]
  rw [show m % 256 % 256 + 256 * (m / 256 % 256) = m from by omega]
  rw [if_pos h]

/-- The `as usize` cast of a natural-number cast is the identity in
range. -/
lemma usizeOfI16_natCast (n : Nat) (h : (n : Int) < 2 ^ 64) :
    usizeOfI16 (n : Int) = n := by
  simp only [usizeOfI16]; omega

/-- The decode loop on a well-formed serialized frame sequence followed
by at most one stray byte succeeds and appends exactly the engine's
output slices, frame by frame. -/
lemma decodeFrames_serialize {σ : Type} (eng : DecEngine σ)
    (frame_size : Nat) (hfsz : frame_size ≤ 32767)
    (hcode : ∀ st ctrl input, (eng.decode st ctrl input).code = 0)
    (trailing : List UInt8) (ht : trailing.length ≤ 1) :
    ∀ (frames : List (List UInt8)) (st : σ)
      (ctrl : SKP_SILK_SDK_DecControlStruct) (result : List UInt8),
      (∀ f ∈ frames, f.length ≤ frame_size) →
      decodeFrames eng frame_size st ctrl
          (serializeFrames frames ++ trailing) result
        = .ok (result
            ++ ((engineOutputs eng st ctrl frames).map Prod.snd).flatten) := by
  intro frames
  induction frames with
  | nil =>
    intro st ctrl result _
    rcases trailing with _ | ⟨a, _ | ⟨b, t⟩⟩
    · simp [serializeFrames, decodeFrames, engineOutputs]
    · simp [serializeFrames, decodeFrames, engineOutputs]
    · simp at ht
  | cons f fs ih =>
    intro st ctrl result hf
    have hflen : f.length ≤ frame_size :=
      hf f (List.mem_cons_self f fs)
    have hm : f.length < 32768 := by omega
    have hser : serializeFrames (f :: fs) ++ trailing
        = UInt8.ofNat (f.length % 256) :: UInt8.ofNat (f.length / 256)
          :: (f ++ (serializeFrames fs ++ trailing)) := by
      simp only [serializeFrames, List.flatMap_cons, toLe16_ofNat hm]
      simp [List.append_assoc]
    rw [hser, decodeFrames, getI16le_bytes hm]
    rw [i16OfNat_of_lt (show frame_size < 32768 by omega)]
    rw [if_neg (by exact_mod_cast not_lt.mpr (by exact_mod_cast hflen))]
    rw [usizeOfI16_natCast f.length (by omega)]
    rw [if_neg (not_lt.mpr (by simp [List.length_append]))]
    rw [List.take_left, List.drop_left]
    rw [if_neg (not_not_intro (hcode st ctrl f))]
    rw [ih _ _ _ fun g hg => hf g (List.mem_cons_of_mem f hg)]
    simp only [engineOutputs, List.map_cons, List.flatten_cons]
    rw [List.append_assoc]

/-- C4: on a well-formed stream — valid header, every frame length within
the maximum, engine succeeding with in-range output sizes — the loop
stops cleanly as soon as fewer than 2 bytes remain (so 0 or 1 trailing
bytes are ignored), and `decode_silk` returns `Ok` of the concatenation,
in frame order, of exactly `outputSampleCount * 2` bytes per decoded
frame. -/
theorem c4_decode_wellformed {σ : Type} (eng : DecEngine σ)
    (sample_rate : Int) (frames : List (List UInt8))
    (trailing : List UInt8) (flag : Bool)
    (hsr0 : 0 ≤ sample_rate) (hsr1 : sample_rate < 2 ^ 31)
    (hfsz : sample_rate.toNat / 1000 * 40 ≤ 32767)
    (hcode : ∀ st ctrl input, (eng.decode st ctrl input).code = 0)
    (hsz : ∀ st ctrl input,
      usizeOfI16 (eng.decode st ctrl input).nSamples * 2
        ≤ (eng.decode st ctrl input).buf.length)
    (hs : eng.sizeCode = 0) (hi : eng.initCode = 0)
    (hf : ∀ f ∈ frames, f.length ≤ sample_rate.toNat / 1000 * 40)
    (ht : trailing.length ≤ 1) :
    (∀ (st : σ) (ctrl : SKP_SILK_SDK_DecControlStruct)
        (src result : List UInt8), src.length < 2 →
      decodeFrames eng (sample_rate.toNat / 1000 * 40) st ctrl src result
        = .ok result) ∧
    _decode_silk eng
        ((if flag then [2] else []) ++ silkHeader
          ++ (serializeFrames frames ++ trailing)) sample_rate
      = .ok (((engineOutputs eng eng.init
          { API_sampleRate := sample_rate, frameSize := 0,
            framesPerPacket := 1, moreInternalDecoderFrames := 0,
            inBandFECOffset := 0 } frames).map Prod.snd).flatten) ∧
    (∀ p ∈ engineOutputs eng eng.init
        { API_sampleRate := sample_rate, frameSize := 0,
          framesPerPacket := 1, moreInternalDecoderFrames := 0,
          inBandFECOffset := 0 } frames,
      p.2.length = p.1 * 2) := by
  refine ⟨?_, ?_, ?_⟩
  · intro st ctrl src result hsrc
    rcases src with _ | ⟨a, _ | ⟨b, t⟩⟩
    · rw [decodeFrames]
      intro b0 b1 rest h
      simp at h
    · rw [decodeFrames]
      intro b0 b1 rest h
      simp at h
    · exact absurd hsrc (by simp only [List.length_cons]; omega)
  · have hbody : _decode_silk eng
        (silkHeader ++ (serializeFrames frames ++ trailing)) sample_rate
        = .ok (((engineOutputs eng eng.init
            { API_sampleRate := sample_rate, frameSize := 0,
              framesPerPacket := 1, moreInternalDecoderFrames := 0,
              inBandFECOffset := 0 } frames).map Prod.snd).flatten) := by
      simp only [_decode_silk]
      rw [silkHeader_no_flag]
      simp only [Bool.false_eq_true, if_false]
      rw [if_pos (isPrefixOf_self_append silkHeader _)]
      rw [List.drop_left]
      simp only [decodeAfterHeader]
      rw [if_neg (not_not_intro hs), if_neg (not_not_intro hi)]
      rw [usizeOfI32_toNat hsr0 (by omega)]
      rw [decodeFrames_serialize eng _ hfsz hcode trailing ht frames _ _ _ hf]
      rw [List.nil_append]
    cases flag with
    | false => simpa using hbody
    | true =>
      have h1 : ((([2] : List UInt8)) ++ silkHeader)
          ++ (serializeFrames frames ++ trailing)
          = 2 :: (silkHeader ++ (serializeFrames frames ++ trailing)) := by
        simp
      have hflag : _decode_silk eng
          ((([2] : List UInt8) ++ silkHeader)
            ++ (serializeFrames frames ++ trailing)) sample_rate
          = _decode_silk eng
            (silkHeader ++ (serializeFrames frames ++ trailing))
            sample_rate := by
        simp only [_decode_silk]
        rw [h1]
        rw [if_pos (show ([(2 : UInt8)].isPrefixOf
          (2 :: (silkHeader ++ (serializeFrames frames ++ trailing)))) = true
          from rfl)]
        rw [silkHeader_no_flag]
        simp only [Bool.false_eq_true, if_false, List.drop_succ_cons,
          List.drop_zero]
      simpa using hflag.trans hbody
  · intro p hp
    revert hp
    suffices h : ∀ (fr : List (List UInt8)) (st : σ)
        (ctrl : SKP_SILK_SDK_DecControlStruct),
        ∀ p ∈ engineOutputs eng st ctrl fr, p.2.length = p.1 * 2 from
      h frames _ _ p
    intro fr
    induction fr with
    | nil => intro st ctrl q hq; simp [engineOutputs] at hq
    | cons g gs ih =>
      intro st ctrl q hq
      simp only [engineOutputs, List.mem_cons] at hq
      rcases hq with h | h
      · subst h
        simp only [List.length_take]
        exact Nat.min_eq_left (hsz st ctrl g)
      · exact ih _ _ q h

/-- There are exactly `⌊len/n⌋` full chunks. -/
lemma fullChunks_length (n : Nat) (hn : 0 < n) :
    ∀ (k : Nat) (l : List UInt8), l.length ≤ k →
      (fullChunks n l).length = l.length / n := by
  intro k
  induction k with
  | zero =>
    intro l hl
    have h0 : l.length = 0 := by omega
    rw [fullChunks, dif_neg (by omega)]
    simp [h0, Nat.div_eq_of_lt hn]
  | succ k ih =>
    intro l hl
    by_cases h : n ≤ l.length
    · rw [fullChunks, dif_pos ⟨hn, h⟩]
      simp only [List.length_cons]
      rw [ih (l.drop n) (by simp only [List.length_drop]; omega)]
      simp only [List.length_drop]
      rw [Nat.div_eq_sub_div hn h]
    · rw [fullChunks, dif_neg (by omega)]
      simp [Nat.div_eq_of_lt (by omega : l.length < n)]

/-- Every full chunk has exactly `n` bytes. -/
lemma fullChunks_full (n : Nat) :
    ∀ (k : Nat) (l : List UInt8), l.length ≤ k →
      ∀ c ∈ fullChunks n l, c.length = n := by
  intro k
  induction k with
  | zero =>
    intro l hl c hc
    rw [fullChunks] at hc
    rcases Nat.eq_zero_or_pos n with h0 | h0
    · rw [dif_neg (by omega)] at hc
      simp at hc
    · rw [dif_neg (by omega)] at hc
      simp at hc
  | succ k ih =>
    intro l hl c hc
    by_cases h : 0 < n ∧ n ≤ l.length
    · rw [fullChunks, dif_pos h] at hc
      rcases List.mem_cons.mp hc with h1 | h1
      · subst h1
        simp only [List.length_take]
        omega
      · exact ih (l.drop n) (by simp only [List.length_drop]; omega) c h1
    · rw [fullChunks, dif_neg h] at hc
      simp at hc

/-- Unfolding `fullChunks` when a full chunk is available. -/
lemma fullChunks_pos (n : Nat) (l : List UInt8) (h : 0 < n ∧ n ≤ l.length) :
    fullChunks n l = l.take n :: fullChunks n (l.drop n) := by
  rw [fullChunks, dif_pos h]

/-- `fullChunks` of an empty buffer is empty. -/
lemma fullChunks_nil (n : Nat) : fullChunks n [] = [] := by
  rw [fullChunks, dif_neg]
  rintro ⟨h1, h2⟩
  simp only [List.length_nil] at h2
  omega

/-- `fullChunks` of a buffer shorter than one chunk is empty. -/
lemma fullChunks_short (n : Nat) (l : List UInt8) (h : l.length < n) :
    fullChunks n l = [] := by
  rw [fullChunks, dif_neg]
  rintro ⟨h1, h2⟩
  omega

/-- Unfolding `encOutputs` on a chunk cons cell. -/
lemma encOutputs_cons {σ : Type} (eng : EncEngine σ)
    (ctrl : SKP_SILK_SDK_EncControlStruct) (st : σ) (c : List UInt8)
    (cs : List (List UInt8)) :
    encOutputs eng ctrl st (c :: cs)
      = ((eng.encode st ctrl c).nBytes,
          (eng.encode st ctrl c).buf.take
            (usizeOfI16 (eng.encode st ctrl c).nBytes))
        :: encOutputs eng ctrl (eng.encode st ctrl c).st cs := rfl

/-- The encode chunk loop over `src.chunks(frame_size)` with its
break-on-short-chunk is the frame emission over exactly the full
chunks. -/
lemma encodeChunks_listChunks {σ : Type} (eng : EncEngine σ)
    (ctrl : SKP_SILK_SDK_EncControlStruct) (frame_size : Nat)
    (hn : 0 < frame_size)
    (hcode : ∀ st chunk, (eng.encode st ctrl chunk).code = 0) :
    ∀ (k : Nat) (l : List UInt8) (st : σ) (acc : List UInt8),
      l.length ≤ k →
      encodeChunks eng ctrl frame_size st (listChunks frame_size l) acc
        = .ok (acc ++ ((encOutputs eng ctrl st (fullChunks frame_size l)).map
            fun p => toLe16 p.1 ++ p.2).flatten) := by
  have hne0 : ¬ frame_size = 0 := by omega
  intro k
  induction k with
  | zero =>
    intro l st acc hl
    have h0 : l = [] := by
      cases l with
      | nil => rfl
      | cons a t => simp at hl
    subst h0
    rw [listChunks, if_neg hne0, if_pos rfl, fullChunks_nil]
    simp [encodeChunks, encOutputs]
  | succ k ih =>
    intro l st acc hl
    by_cases hemp : l = []
    · subst hemp
      rw [listChunks, if_neg hne0, if_pos rfl, fullChunks_nil]
      simp [encodeChunks, encOutputs]
    · rw [listChunks, if_neg hne0, if_neg hemp]
      by_cases hlen : l.length ≤ frame_size
      · rw [if_pos hlen]
        by_cases hshort : l.length < frame_size
        · rw [encodeChunks, if_pos hshort, fullChunks_short frame_size l hshort]
          simp [encOutputs]
        · have heq : l.length = frame_size := by omega
          rw [encodeChunks, if_neg hshort,
            if_neg (not_not_intro (hcode st l)), encodeChunks]
          rw [fullChunks_pos frame_size l ⟨hn, by omega⟩]
          rw [show l.take frame_size = l from by rw [← heq, List.take_length]]
          rw [show l.drop frame_size = ([] : List UInt8) from by
            rw [← heq, List.drop_length]]
          rw [fullChunks_nil, encOutputs_cons]
          simp [encOutputs, List.append_assoc]
      · rw [if_neg hlen]
        have htk : (l.take frame_size).length = frame_size := by
          simp only [List.length_take]
          omega
        have hnotshort : ¬ (l.take frame_size).length < frame_size := by omega
        rw [encodeChunks, if_neg hnotshort,
          if_neg (not_not_intro (hcode st (l.take frame_size)))]
        rw [ih (l.drop frame_size) _ _
          (show (l.drop frame_size).length ≤ k from by
            simp only [List.length_drop]; omega)]
        rw [fullChunks_pos frame_size l ⟨hn, by omega⟩, encOutputs_cons]
        simp [List.append_assoc]

/-- C3: `encode_silk` emits the vendor flag byte exactly when requested,
then the magic, then — for exactly the `⌊len/chunkSize⌋` full chunks of
the input, in order — the engine frame's byte length as 16-bit
little-endian followed by that many frame bytes; a trailing partial
chunk contributes nothing. -/
theorem c3_encode_framing {σ : Type} (eng : EncEngine σ) (src : List UInt8)
    (sample_rate bit_rate : Int) (tencent : Bool)
    (ctrl : SKP_SILK_SDK_EncControlStruct)
    (hctrl : ctrl = { API_sampleRate := sample_rate
                      maxInternalSampleRate := 24000
                      packetSize := Int.tdiv (20 * sample_rate) 1000
                      bitRate := bit_rate
                      packetLossPercentage := 0
                      complexity := 2
                      useInBandFEC := 0
                      useDTX := 0 })
    (hsr0 : 1000 ≤ sample_rate) (hsr1 : sample_rate < 2 ^ 31)
    (hcode : ∀ st chunk, (eng.encode st ctrl chunk).code = 0)
    (hsz : ∀ st chunk,
      usizeOfI16 (eng.encode st ctrl chunk).nBytes
        ≤ (eng.encode st ctrl chunk).buf.length)
    (hs : eng.sizeCode = 0) (hi : eng.initCode = 0) :
    _encode_silk eng src sample_rate bit_rate tencent
      = .ok (((if tencent then [2] else []) ++ silkHeader)
          ++ ((encOutputs eng ctrl eng.init
              (fullChunks (sample_rate.toNat / 1000 * 40) src)).map
            fun p => toLe16 p.1 ++ p.2).flatten) ∧
    (fullChunks (sample_rate.toNat / 1000 * 40) src).length
      = src.length / (sample_rate.toNat / 1000 * 40) ∧
    (∀ c ∈ fullChunks (sample_rate.toNat / 1000 * 40) src,
      c.length = sample_rate.toNat / 1000 * 40) ∧
    (∀ p ∈ encOutputs eng ctrl eng.init
        (fullChunks (sample_rate.toNat / 1000 * 40) src),
      p.2.length = usizeOfI16 p.1) := by
  have hn : 0 < sample_rate.toNat / 1000 * 40 := by omega
  refine ⟨?_, fullChunks_length _ hn _ src le_rfl,
    fullChunks_full _ _ src le_rfl, ?_⟩
  · subst hctrl
    simp only [_encode_silk]
    rw [if_neg (not_not_intro hs), if_neg (not_not_intro hi)]
    rw [usizeOfI32_toNat (by omega) (by omega)]
    rw [encodeChunks_listChunks eng _ _ hn hcode src.length src _ _ le_rfl]
  · suffices h : ∀ (chunks : List (List UInt8)) (st : σ),
        ∀ p ∈ encOutputs eng ctrl st chunks,
          p.2.length = usizeOfI16 p.1 from h _ _
    intro chunks
    induction chunks with
    | nil => intro st p hp; simp [encOutputs] at hp
    | cons c cs ih =>
      intro st p hp
      simp only [encOutputs, List.mem_cons] at hp
      rcases hp with h | h
      · subst h
        simp only [List.length_take]
        exact Nat.min_eq_left (hsz st c)
      · exact ih _ p h

/-- C4 witness: a flagged stream with one empty frame and one stray
trailing byte decodes to `Ok` of the engine-output concatenation. -/
theorem c4_witness :
    _decode_silk trivDec
        ([2] ++ silkHeader ++ (serializeFrames [[]] ++ [7])) 24000
      = .ok (((engineOutputs trivDec trivDec.init
          { API_sampleRate := 24000
            frameSize := 0
            framesPerPacket := 1
            moreInternalDecoderFrames := 0
            inBandFECOffset := 0 } [[]]).map Prod.snd).flatten) :=
  (c4_decode_wellformed trivDec 24000 [[]] [7] true (by norm_num)
    (by norm_num) (by decide) (fun _ _ _ => rfl)
    (fun _ _ _ => by simp [trivDec, usizeOfI16]) rfl rfl
    (fun f hf => by
      simp only [List.mem_singleton] at hf
      subst hf
      simp) (by norm_num)).2.1

/-- C3 witness: encoding an empty input with the flag off yields the bare
magic header followed by the (empty) full-chunk frame emission. -/
theorem c3_witness :
    _encode_silk trivEnc [] 24000 20000 false
      = .ok (((if false then [2] else []) ++ silkHeader)
          ++ ((encOutputs trivEnc
              { API_sampleRate := 24000
                maxInternalSampleRate := 24000
                packetSize := Int.tdiv (20 * 24000) 1000
                bitRate := 20000
                packetLossPercentage := 0
                complexity := 2
                useInBandFEC := 0
                useDTX := 0 } trivEnc.init
              (fullChunks ((24000 : Int).toNat / 1000 * 40) [])).map
            fun p => toLe16 p.1 ++ p.2).flatten) :=
  (c3_encode_framing trivEnc [] 24000 20000 false
    { API_sampleRate := 24000
      maxInternalSampleRate := 24000
      packetSize := Int.tdiv (20 * 24000) 1000
      bitRate := 20000
      packetLossPercentage := 0
      complexity := 2
      useInBandFEC := 0
      useDTX := 0 } rfl (by norm_num) (by norm_num) (fun _ _ => rfl)
    (fun _ _ => by simp [trivEnc, usizeOfI16]) rfl rfl).1

end SilkCodec
